import Mathlib

/-!
Verification of the pymemc memcached client library.

This file gives a shallow embedding of the parts of the repository that the
verified properties talk about:

* `src/pymc/chash.py` — the consistent-hash ring (`ConsistentHash`);
* `src/pymemc/pymemc.py` — the binary-protocol request builders (`_gd`, `_s`),
  the value codec (`_serialize` / `_deserialize`), key validation
  (`_encode_key`), the chunking generator (`chunk`), and the multi-operation
  engine (the per-host send loops and the opaque-correlated receive loops of
  `_gmulti_helper`, `_smulti_helper` and `delete_multi`);
* `src/pymemc/connpool.py` — `clear_pool` and the `instance_reconnect`
  retry wrapper.

Byte strings are modelled as `List Nat` (one entry per byte).  The MD5
function, the per-caller value encoder/decoder and compressor, and the
text-to-bytes key encoding are opaque callbacks in the source and are
modelled as function parameters.  Machine-width fields written by
`struct.pack` carry an explicit `% 2 ^ w` where the source packs a w-bit
field that a claim depends on.
-/

namespace Pymemc

/-- Byte strings: one `Nat` per byte. -/
abbrev Bytes := List Nat

/-- Constant `MAX_KEY_SIZE = 0xFA` from pymemc.py. -/
def MAX_KEY_SIZE : Nat := 0xFA

/-- Constant `MAGIC_REQUEST = 0x80` from pymemc.py. -/
def MAGIC_REQUEST : Nat := 0x80

/-- Constant `MAGIC_RESPONSE = 0x81` from pymemc.py. -/
def MAGIC_RESPONSE : Nat := 0x81

/-- Flag constants from class `F` in pymemc.py. -/
def F_pickle : Nat := 1
/-- Flag `F._int = 1 <<< 1`. -/
def F_int : Nat := 2
/-- Flag `F._long = 1 <<< 2`. -/
def F_long : Nat := 4
/-- Flag `F._compressed = 1 <<< 3`. -/
def F_compressed : Nat := 8

/-- Response code `R._no_error`. -/
def R_no_error : Nat := 0x0000
/-- Response code `R._key_not_found`. -/
def R_key_not_found : Nat := 0x0001
/-- Response code `R._key_exists`. -/
def R_key_exists : Nat := 0x0002
/-- Response code `R._items_not_stored`. -/
def R_items_not_stored : Nat := 0x0005
/-- Response code `R._key_too_large` (client-side synthetic code). -/
def R_key_too_large : Nat := 0x0007

/-- Opcode `M._get`. -/
def M_get : Nat := 0x00
/-- Opcode `M._set`. -/
def M_set : Nat := 0x01
/-- Opcode `M._delete`. -/
def M_delete : Nat := 0x04
/-- Opcode `M._getq`. -/
def M_getq : Nat := 0x09
/-- Opcode `M._setq`. -/
def M_setq : Nat := 0x11
/-- Opcode `M._deleteq`. -/
def M_deleteq : Nat := 0x14

/-- Errors raised by the client.  `memcachedError n` models
`MemcachedError` carrying status code `n`; `connectionClosed` models
`MemcachedConnectionClosedError`; `keyError` models a Python `KeyError`. -/
inductive Err where
  | memcachedError : Nat → Err
  | connectionClosed : Err
  | keyError : Err
deriving DecidableEq, Repr

/-- Decimal digits of a natural number, most significant first
(the digit list underlying Python's `str(n)` for `n ≥ 0`). -/
def natDigits (n : Nat) : List Nat :=
  if n < 10 then [n] else natDigits (n / 10) ++ [n % 10]
termination_by n
decreasing_by
  exact Nat.div_lt_self (by omega) (by omega)

/-- Numeric value of a big-endian decimal digit list (Python `int` applied to
a digit string, at the digit-value level). -/
def parseDigits (l : List Nat) : Nat :=
  l.foldl (fun a d => a * 10 + d) 0

/-- ASCII rendering of Python `str(i)` for an integer `i`:
45 is the minus sign, digits are offset by 48. -/
def str_of_int (i : Int) : Bytes :=
  if i < 0 then 45 :: (natDigits i.natAbs).map (48 + ·)
  else (natDigits i.natAbs).map (48 + ·)

/-- Python `int(s)` / `long(s)` on a well-formed decimal byte string
(the only inputs the client ever feeds it): an optional leading minus sign,
then decimal digits. -/
def int_of_str (b : Bytes) : Int :=
  if b.head? = some 45 then -(parseDigits (b.tail.map (· - 48)) : Int)
  else (parseDigits (b.map (· - 48)) : Int)

/-- Big-endian integer value of a byte string (a digest read as an unsigned
big-endian integer). -/
def beInt (digest : Bytes) : Nat :=
  digest.foldl (fun a b => a * 256 + b) 0

/-- Hex digit values of a byte string, two per byte, most significant first
(Python `hexdigest()` at the digit-value level). -/
def hexDigits (digest : Bytes) : List Nat :=
  digest.flatMap (fun b => [b / 16, b % 16])

/-- Numeric value of a big-endian hex digit list (Python `long(s, 16)` at the
digit-value level). -/
def parseHex (digits : List Nat) : Nat :=
  digits.foldl (fun a d => a * 16 + d) 0

/-- Generator `chunk(iterable, chunksize)` from pymemc.py: repeatedly slice
off `chunksize` elements; stop when a slice comes back empty. -/
def chunk (xs : List α) (n : Nat) : List (List α) :=
  match h : xs.take n with
  | [] => []
  | _ :: _ => xs.take n :: chunk (xs.drop n) n
termination_by xs.length
decreasing_by
  have h' := congrArg List.length h
  simp only [List.length_take, List.length_cons] at h'
  simp only [List.length_drop]
  omega

/-- Key encoding applied by `Client._encode_key` before the size check:
`if self.default_encoding: key = key.encode(self.default_encoding)`.
The text-to-bytes encoding itself is a parameter; `none` models a falsy
`default_encoding` (key passed through). -/
def applyEncoding (enc : Option (Bytes → Bytes)) (key : Bytes) : Bytes :=
  match enc with
  | some f => f key
  | none => key

/-- Method `Client._encode_key`: encode the key, then raise
`MemcachedError` with code `R._key_too_large` when the encoded key is longer
than `MAX_KEY_SIZE`. -/
def _encode_key (enc : Option (Bytes → Bytes)) (key : Bytes) : Except Err Bytes :=
  if (applyEncoding enc key).length > MAX_KEY_SIZE then .error (.memcachedError R_key_too_large)
  else .ok (applyEncoding enc key)

/-- Caller-supplied callbacks of the `Client` constructor: `encode_fn` /
`decode_fn` (value serializer pair, over an abstract object type `Obj`) and
the optional `compress_fn` / `decompress_fn` compressor pair. -/
structure Cfg (Obj : Type) where
  encode_fn : Obj → Bytes
  decode_fn : Bytes → Obj
  compress_fn : Option (Bytes → Bytes)
  decompress_fn : Option (Bytes → Bytes)

/-- Runtime type of a Python value as `Client._serialize` dispatches on it:
a byte string (`str`), a machine `int`, an arbitrary-precision `long`, or any
other object (which goes through `encode_fn`). -/
inductive Val (Obj : Type) where
  | str : Bytes → Val Obj
  | int : Int → Val Obj
  | long : Int → Val Obj
  | obj : Obj → Val Obj
deriving DecidableEq, Repr

/-- Method `Client._compress`: apply `compress_fn` when configured, else
return the value unchanged. -/
def _compress (c : Cfg Obj) (v : Bytes) : Bytes :=
  match c.compress_fn with
  | some f => f v
  | none => v

/-- Method `Client._decompress`: apply `decompress_fn` when configured, else
return the value unchanged. -/
def _decompress (c : Cfg Obj) (v : Bytes) : Bytes :=
  match c.decompress_fn with
  | some f => f v
  | none => v

/-- Method `Client._serialize`: dispatch on the value's runtime type to pick
flags and payload bytes; numeric values are returned as decimal text with no
compression; every other value is passed through `_compress` and the
`COMPRESSED` flag is or-ed in. -/
def _serialize (c : Cfg Obj) (value : Val Obj) : Nat × Bytes :=
  let fv : Nat × Bytes :=
    match value with
    | .str s => (0, s)
    | .int n => (0 ||| F_int, str_of_int n)
    | .long n => (0 ||| F_long, str_of_int n)
    | .obj o => (0 ||| F_pickle, c.encode_fn o)
  if fv.1 &&& F_int ≠ 0 ∨ fv.1 &&& F_long ≠ 0 then fv
  else (fv.1 ||| F_compressed, _compress c fv.2)

/-- Method `Client._deserialize`: undo `_compress` when the `COMPRESSED` bit
is set, then dispatch on the `INT` / `LONG` / `PICKLED` bits, else return the
raw bytes. -/
def _deserialize (c : Cfg Obj) (value : Bytes) (flags : Nat) : Val Obj :=
  let value := if flags &&& F_compressed ≠ 0 then _decompress c value else value
  if flags &&& F_int ≠ 0 then .int (int_of_str value)
  else if flags &&& F_long ≠ 0 then .long (int_of_str value)
  else if flags &&& F_pickle ≠ 0 then .obj (c.decode_fn value)
  else .str value

/-- Assignment `m[k] = v` on a Python dict, modelled as an insertion-ordered
association list with unique keys: replace in place when present, else
append. -/
def dictSet [DecidableEq κ] (m : List (κ × ν)) (k : κ) (v : ν) : List (κ × ν) :=
  if m.any (fun kv => kv.1 = k) then m.map (fun kv => if kv.1 = k then (k, v) else kv)
  else m ++ [(k, v)]

/-- Lookup `m[k]` on a Python dict modelled as an association list. -/
def dictGet [DecidableEq κ] (m : List (κ × ν)) (k : κ) : Option ν :=
  (m.find? (fun kv => kv.1 = k)).map Prod.snd

/-- Servers (in pymemc: `SocketConnectionPool` objects) are identified by an
abstract id. -/
abbrev Node := Nat

/-- Class `ConsistentHash` from chash.py: the point-to-node mapping `ring`,
the sorted list of hash points `sorted_keys`, the replica count and the
`single_node` fast-path flag. -/
structure ConsistentHash where
  replicas : Nat
  ring : List (Nat × Node)
  sorted_keys : List Nat
  single_node : Bool
deriving DecidableEq, Repr

/-- Constructor `ConsistentHash.__init__`. -/
def ConsistentHash.init (replicas : Nat) : ConsistentHash :=
  ⟨replicas, [], [], true⟩

/-- Method `ConsistentHash.hashkey`: `long(md5(key).hexdigest(), 16)`.  The
MD5 digest itself is an opaque parameter `md5` returning the 16 digest
bytes. -/
def hashkey (md5 : Bytes → Bytes) (key : Bytes) : Nat :=
  parseHex (hexDigits (md5 key))

/-- Method `ConsistentHash.all_nodes`: `list(set(self.ring.values()))`. -/
def all_nodes (ring : List (Nat × Node)) : List Node :=
  (ring.map Prod.snd).dedup

/-- Byte string `"%s:%i" % (node, i)` hashed by `add_node` for replica `i`:
the node's string form (a parameter `ns`), a colon (byte 58), then the
decimal digits of `i`. -/
def replicaBytes (ns : Node → Bytes) (node : Node) (i : Nat) : Bytes :=
  ns node ++ [58] ++ (natDigits i).map (48 + ·)

/-- Hash points inserted for one node by `add_node`:
`hashkey("%s:%i" % (node, i))` for `i` in `0 .. replicas - 1`.  The whole
hash function (`hashkey` composed with a concrete MD5) is a parameter `hk`. -/
def nodePoints (hk : Bytes → Nat) (ns : Node → Bytes) (replicas : Nat) (node : Node) : List Nat :=
  (List.range replicas).map (fun i => hk (replicaBytes ns node i))

/-- Method `ConsistentHash.add_node`: insert every replica point into `ring`
(dict assignment) and append it to `sorted_keys`, sort `sorted_keys` once
after the loop, then drop the `single_node` flag when more than one distinct
node is registered. -/
def add_node (hk : Bytes → Nat) (ns : Node → Bytes) (ch : ConsistentHash) (node : Node) :
    ConsistentHash :=
  let pts := nodePoints hk ns ch.replicas node
  let ring := pts.foldl (fun r key => dictSet r key node) ch.ring
  let sorted_keys := (ch.sorted_keys ++ pts).mergeSort (fun a b => decide (a ≤ b))
  let single_node := if (all_nodes ring).length > 1 then false else ch.single_node
  ⟨ch.replicas, ring, sorted_keys, single_node⟩

/-- Function `bisect.bisect_left(a, x)` from the Python standard library as
its documentation specifies it on a sorted list: the leftmost index at which
`x` could be inserted keeping `a` sorted, that is the number of leading
elements strictly below `x`. -/
def bisect_left (a : List Nat) (x : Nat) : Nat :=
  match a with
  | [] => 0
  | y :: ys => if y < x then bisect_left ys x + 1 else 0

/-- Method `ConsistentHash.get_node`: the single-node fast path returns
`ring[sorted_keys[0]]`; otherwise hash the key, wrap around to
`ring[sorted_keys[0]]` when the hash exceeds the largest point, else return
the node at the `bisect_left` insertion point.  Python's `IndexError` /
`KeyError` on an empty or inconsistent ring are modelled as `none`. -/
def get_node (hk : Bytes → Nat) (ch : ConsistentHash) (key : Bytes) : Option Node :=
  if ch.single_node then
    ch.sorted_keys.head?.bind (dictGet ch.ring)
  else
    let ckey := hk key
    match ch.sorted_keys.getLast? with
    | none => none
    | some lastKey =>
      if ckey > lastKey then ch.sorted_keys.head?.bind (dictGet ch.ring)
      else (ch.sorted_keys.get? (bisect_left ch.sorted_keys ckey)).bind (dictGet ch.ring)

/-- Fields packed by the request builders (`struct.pack('!BBHBBHLLQ...')`):
the fixed 24-byte header plus extras, key and value.  Fields are kept at the
argument level; `opaque` carries the `% 2 ^ 32` of its 'L' wire width, the
width a claim depends on. -/
structure ReqFrame where
  magic : Nat
  opcode : Nat
  keylen : Nat
  extlen : Nat
  datatype : Nat
  status : Nat
  bodylen : Nat
  opq : Nat
  cas : Nat
  extras : List Nat
  key : Bytes
  val : Bytes
deriving DecidableEq, Repr

/-- Builder `_gd(opcode, key, opaque, cas)`: a get* or delete* request packet
(no extras, body is the key alone). -/
def _gd (opcode : Nat) (key : Bytes) (opq cas : Nat) : ReqFrame :=
  { magic := MAGIC_REQUEST
    opcode := opcode
    keylen := key.length
    extlen := 0
    datatype := 0
    status := 0
    bodylen := key.length
    opq := opq % 2 ^ 32
    cas := cas
    extras := []
    key := key
    val := [] }

/-- Builder `_s(opcode, key, val, opaque, expire, cas, flags)`: a set* or
replace* packet with `flags ++ expire` extras (extras length 8). -/
def _s (opcode : Nat) (key val : Bytes) (opq expire cas flags : Nat) : ReqFrame :=
  { magic := MAGIC_REQUEST
    opcode := opcode
    keylen := key.length
    extlen := 8
    datatype := 0
    status := 0
    bodylen := key.length + val.length + 8
    opq := opq % 2 ^ 32
    cas := cas
    extras := [flags, expire]
    key := key
    val := val }

/-- Fields returned by `sockresponse`: the unpacked 24-byte response header
plus the `bodylen` bytes of body (`extra`). -/
structure RespFrame where
  magic : Nat
  opcode : Nat
  keylen : Nat
  extlen : Nat
  datatype : Nat
  status : Nat
  bodylen : Nat
  opq : Nat
  cas : Nat
  extra : Bytes
deriving DecidableEq, Repr

/-- Unpacking `struct.unpack('!L%ds' % (bodylen - 4), extra)`: the first four
body bytes are the big-endian flags, the rest is the stored value. -/
def unpackFlagsValue (extra : Bytes) : Nat × Bytes :=
  (beInt (extra.take 4), extra.drop 4)

/-- Send loop of `_gmulti_helper.per_host_fn` for `get_multi`: requests are
enumerated with ascending opaque `i`; every request but the last is
`_gd(M._getq, key, i, 0)`, the last is `_gd(M._get, key, i, 0)`. -/
def gmulti_send (sisterKeys : List Bytes) : List ReqFrame :=
  let last_i := sisterKeys.length - 1
  sisterKeys.enum.map (fun p =>
    if p.1 = last_i then _gd M_get p.2 p.1 0 else _gd M_getq p.2 p.1 0)

/-- Send loop of `_smulti_helper.per_host_fn` for `set_multi`: each value is
serialized, then every item but the last is sent as
`_s(M._setq, key, val, i, expire, 0, flags)` and the last as
`_s(M._set, ...)`. -/
def smulti_send (c : Cfg Obj) (items : List (Bytes × Val Obj)) (expire : Nat) : List ReqFrame :=
  let last_i := items.length - 1
  items.enum.map (fun p =>
    let fv := _serialize c p.2.2
    if p.1 = last_i then _s M_set p.2.1 fv.2 p.1 expire 0 fv.1
    else _s M_setq p.2.1 fv.2 p.1 expire 0 fv.1)

/-- Send loop of `delete_multi.per_host_delete`: every key but the last is
sent as `_gd(M._deleteq, key, i, 0)`, the last as `_gd(M._delete, key, i, 0)`. -/
def dmulti_send (items : List Bytes) : List ReqFrame :=
  let last_i := items.length - 1
  items.enum.map (fun p =>
    if p.1 = last_i then _gd M_delete p.2 p.1 0 else _gd M_deleteq p.2 p.1 0)

/-- Receive loop of `_gmulti_helper.per_host_fn`: read responses from the
stream; a no-error response stores the deserialized value under
`sister_keys[opaque]`; the loop breaks when `opaque == last_i`.  `none`
models the failure cases: the stream runs out before the terminator (the
socket read would block or raise), or `sister_keys[opaque]` is out of range
(Python `IndexError`). -/
def gmulti_loop (c : Cfg Obj) (sisterKeys : List Bytes) (last_i : Nat)
    (resps : List RespFrame) (m : List (Bytes × Val Obj)) :
    Option (List (Bytes × Val Obj)) :=
  match resps with
  | [] => none
  | r :: rest =>
    let step : Option (List (Bytes × Val Obj)) :=
      if r.status = R_no_error then
        match sisterKeys.get? r.opq with
        | some k =>
          let fv := unpackFlagsValue r.extra
          some (dictSet m k (_deserialize c fv.2 fv.1))
        | none => none
      else some m
    match step with
    | none => none
    | some m => if r.opq = last_i then some m else gmulti_loop c sisterKeys last_i rest m

/-- Receive loop of `_smulti_helper.per_host_fn`: when `failure_test(status)`
holds the key `items[opaque][0]` is appended to the failure list; the loop
breaks when `opaque == last_i`. -/
def smulti_loop (ft : Nat → Bool) (items : List (Bytes × Val Obj)) (last_i : Nat)
    (resps : List RespFrame) (fl : List Bytes) : Option (List Bytes) :=
  match resps with
  | [] => none
  | r :: rest =>
    let step : Option (List Bytes) :=
      if ft r.status then
        match items.get? r.opq with
        | some kv => some (fl ++ [kv.1])
        | none => none
      else some fl
    match step with
    | none => none
    | some fl => if r.opq = last_i then some fl else smulti_loop ft items last_i rest fl

/-- Receive loop of `delete_multi.per_host_delete`: a non-zero status appends
`items[opaque]` to the failure list; the loop breaks when
`opaque == last_i`. -/
def dmulti_loop (items : List Bytes) (last_i : Nat)
    (resps : List RespFrame) (fl : List Bytes) : Option (List Bytes) :=
  match resps with
  | [] => none
  | r :: rest =>
    let step : Option (List Bytes) :=
      if r.status ≠ R_no_error then
        match items.get? r.opq with
        | some k => some (fl ++ [k])
        | none => none
      else some fl
    match step with
    | none => none
    | some fl => if r.opq = last_i then some fl else dmulti_loop items last_i rest fl

/-- Update `defaultdict(list)`: `m[g].append(k)` creates the bucket on first
use. -/
def dictAppend [DecidableEq κ] (m : List (κ × List ν)) (g : κ) (k : ν) : List (κ × List ν) :=
  if m.any (fun kv => kv.1 = g) then
    m.map (fun kv => if kv.1 = g then (kv.1, kv.2 ++ [k]) else kv)
  else m ++ [(g, [k])]

/-- Update `defaultdict(dict)`: `m[g][k] = v` creates the inner dict on first
use. -/
def dictSetNested [DecidableEq κ] [DecidableEq κ'] (m : List (κ × List (κ' × ν)))
    (g : κ) (k : κ') (v : ν) : List (κ × List (κ' × ν)) :=
  if m.any (fun kv => kv.1 = g) then
    m.map (fun kv => if kv.1 = g then (kv.1, dictSet kv.2 k v) else kv)
  else m ++ [(g, [(k, v)])]

/-- Grouping stage of `_gmulti_helper` (no `hashkey` override): each key is
encoded (which can raise) and appended to the bucket of the server it hashes
to.  Grouping by `id(sock)` in the source is modelled by the per-server id
`lookup` returns. -/
def gmulti_groups (enc : Option (Bytes → Bytes)) (lookup : Bytes → Nat)
    (keys : List Bytes) : Except Err (List (Nat × List Bytes)) :=
  keys.foldlM (fun acc key => do
    let k ← _encode_key enc key
    pure (dictAppend acc (lookup k) k)) []

/-- Task list of `_gmulti_helper`: with a `hashkey` override the raw key list
forms one group; otherwise the per-server groups; every group is split by
`chunk(group, 1000)` and each chunk becomes one pipelined task. -/
def gmulti_tasks (enc : Option (Bytes → Bytes)) (lookup : Bytes → Nat)
    (keys : List Bytes) (hashkeyArg : Option Bytes) : Except Err (List (List Bytes)) := do
  let groups ← match hashkeyArg with
    | some _ => pure [keys]
    | none => do
      let g ← gmulti_groups enc lookup keys
      pure (g.map Prod.snd)
  pure (groups.flatMap (fun g => chunk g 1000))

/-- Grouping stage of `_smulti_helper` (no `hashkey` override): each key of
the map is encoded and `hash_groups[id(sock)][key] = kvmap[key]` stores the
value under the encoded key; the `kvmap[key]` lookup by the encoded key can
raise `KeyError` when the encoding changed the key. -/
def smulti_groups (enc : Option (Bytes → Bytes)) (lookup : Bytes → Nat)
    (kvmap : List (Bytes × Val Obj)) :
    Except Err (List (Nat × List (Bytes × Val Obj))) :=
  kvmap.foldlM (fun acc kv => do
    let k ← _encode_key enc kv.1
    match dictGet kvmap k with
    | some v => pure (dictSetNested acc (lookup k) k v)
    | none => Except.error .keyError) []

/-- Task list of `_smulti_helper`: with a `hashkey` override the whole map is
one group; otherwise the per-server groups.  No chunking: each group is
submitted whole as one pipelined task. -/
def smulti_tasks (enc : Option (Bytes → Bytes)) (lookup : Bytes → Nat)
    (kvmap : List (Bytes × Val Obj)) (hashkeyArg : Option Bytes) :
    Except Err (List (List (Bytes × Val Obj))) := do
  let groups ← match hashkeyArg with
    | some _ => pure [kvmap]
    | none => do
      let g ← smulti_groups enc lookup kvmap
      pure (g.map Prod.snd)
  pure groups

/-- Grouping loop of `delete_multi` (no `hashkey` override): textually the
same per-server `defaultdict(list)` grouping as `_gmulti_helper`, duplicated
inline in the source. -/
def dmulti_groups (enc : Option (Bytes → Bytes)) (lookup : Bytes → Nat)
    (keys : List Bytes) : Except Err (List (Nat × List Bytes)) :=
  keys.foldlM (fun acc key => do
    let k ← _encode_key enc key
    pure (dictAppend acc (lookup k) k)) []

/-- Task list of `delete_multi`: with a `hashkey` override the raw key list
is one group, otherwise the per-server groups; each group is submitted whole
as one pipelined task (no chunking). -/
def dmulti_tasks (enc : Option (Bytes → Bytes)) (lookup : Bytes → Nat)
    (keys : List Bytes) (hashkeyArg : Option Bytes) : Except Err (List (List Bytes)) := do
  let groups ← match hashkeyArg with
    | some _ => pure [keys]
    | none => do
      let g ← dmulti_groups enc lookup keys
      pure (g.map Prod.snd)
  pure groups

/-- Frames `get_multi` writes to sockets: the concatenation of the send lists
of all pipelined tasks. -/
def gmulti_sent (enc : Option (Bytes → Bytes)) (lookup : Bytes → Nat)
    (keys : List Bytes) (hashkeyArg : Option Bytes) : Except Err (List ReqFrame) := do
  let tasks ← gmulti_tasks enc lookup keys hashkeyArg
  pure (tasks.flatMap gmulti_send)

/-- Frames `set_multi` writes to sockets. -/
def smulti_sent (c : Cfg Obj) (enc : Option (Bytes → Bytes)) (lookup : Bytes → Nat)
    (kvmap : List (Bytes × Val Obj)) (hashkeyArg : Option Bytes) (expire : Nat) :
    Except Err (List ReqFrame) := do
  let tasks ← smulti_tasks enc lookup kvmap hashkeyArg
  pure (tasks.flatMap (fun t => smulti_send c t expire))

/-- Frames `delete_multi` writes to sockets. -/
def dmulti_sent (enc : Option (Bytes → Bytes)) (lookup : Bytes → Nat)
    (keys : List Bytes) (hashkeyArg : Option Bytes) : Except Err (List ReqFrame) := do
  let tasks ← dmulti_tasks enc lookup keys hashkeyArg
  pure (tasks.flatMap dmulti_send)

/-- Result of `get_multi`: run every task's receive loop over its response
stream (`net` supplies one stream per task; the model serializes the worker
pool's tasks in submission order, which is adequate for the properties
settled with it), accumulating into the shared `response_map`. -/
def gmulti_run (c : Cfg Obj) (enc : Option (Bytes → Bytes)) (lookup : Bytes → Nat)
    (keys : List Bytes) (hashkeyArg : Option Bytes) (net : List (List RespFrame)) :
    Except Err (Option (List (Bytes × Val Obj))) := do
  let tasks ← gmulti_tasks enc lookup keys hashkeyArg
  pure ((tasks.zip net).foldlM (fun m tn => gmulti_loop c tn.1 (tn.1.length - 1) tn.2 m) [])

/-- Result of `set_multi` (the failure list), in the same task-serialized
model as `gmulti_run`. -/
def smulti_run (enc : Option (Bytes → Bytes)) (lookup : Bytes → Nat)
    (kvmap : List (Bytes × Val Obj)) (hashkeyArg : Option Bytes)
    (net : List (List RespFrame)) : Except Err (Option (List Bytes)) := do
  let tasks ← smulti_tasks enc lookup kvmap hashkeyArg
  pure ((tasks.zip net).foldlM
    (fun fl tn => smulti_loop (fun s => decide (s ≠ R_no_error)) tn.1 (tn.1.length - 1) tn.2 fl) [])

/-- Result of `delete_multi` (the failure list), in the same task-serialized
model. -/
def dmulti_run (enc : Option (Bytes → Bytes)) (lookup : Bytes → Nat)
    (keys : List Bytes) (hashkeyArg : Option Bytes) (net : List (List RespFrame)) :
    Except Err (Option (List Bytes)) := do
  let tasks ← dmulti_tasks enc lookup keys hashkeyArg
  pure ((tasks.zip net).foldlM (fun fl tn => dmulti_loop tn.1 (tn.1.length - 1) tn.2 fl) [])

/-- Method `ConnectionPool.clear_pool` from connpool.py: drop every idle
connection (`if not empty: queue.clear()`).  A pool's idle set is modelled as
the list of queued connections. -/
def clear_pool (q : List Conn) : List Conn :=
  if q.isEmpty then q else []

/-- Decorator `instance_reconnect` from connpool.py: run the wrapped method;
when it raises `MemcachedConnectionClosedError`, clear every pool in the ring
and run the method once more.  The method is modelled as a function from the
ring's pool states to a result or error together with the new pool states. -/
def instance_reconnect (method : List (List Conn) → Except Err (α × List (List Conn)))
    (pools : List (List Conn)) : Except Err (α × List (List Conn)) :=
  match method pools with
  | .ok r => .ok r
  | .error e =>
    if e = .connectionClosed then method (pools.map clear_pool)
    else .error e

/-! Helper lemmas. -/

theorem encode_key_err {enc : Option (Bytes → Bytes)} {key : Bytes}
    (h : MAX_KEY_SIZE < (applyEncoding enc key).length) :
    _encode_key enc key = .error (.memcachedError R_key_too_large) := by
  unfold _encode_key
  rw [if_pos h]

theorem encode_key_ok {enc : Option (Bytes → Bytes)} {key : Bytes}
    (h : ¬ MAX_KEY_SIZE < (applyEncoding enc key).length) :
    _encode_key enc key = .ok (applyEncoding enc key) := by
  unfold _encode_key
  rw [if_neg h]

theorem chunk_nil (n : Nat) : chunk ([] : List α) n = [] := by
  rw [chunk]
  split
  · rfl
  · rename_i h
    simp at h

theorem chunk_of_take_ne_nil {xs : List α} {n : Nat} (h : xs.take n ≠ []) :
    chunk xs n = xs.take n :: chunk (xs.drop n) n := by
  rw [chunk]
  rcases hte : xs.take n with _ | ⟨a, l⟩
  · exact absurd hte h
  · simp [← hte]

theorem chunk_pieces (xs : List α) (n : Nat) (hn : 0 < n) :
    (chunk xs n).flatten = xs ∧ ∀ c ∈ chunk xs n, c ≠ [] ∧ c.length ≤ n := by
  suffices H : ∀ (len : Nat) (ys : List α), ys.length = len →
      (chunk ys n).flatten = ys ∧ ∀ c ∈ chunk ys n, c ≠ [] ∧ c.length ≤ n by
    exact H xs.length xs rfl
  intro len
  induction len using Nat.strong_induction_on with
  | _ len ih =>
  intro ys hl
  rcases ys with _ | ⟨a, l⟩
  · simp [chunk_nil]
  · have htake : (a :: l).take n ≠ [] := by
      cases n with
      | zero => omega
      | succ m => simp
    rw [chunk_of_take_ne_nil htake]
    have hdl : ((a :: l).drop n).length < len := by
      subst hl
      simp only [List.length_drop, List.length_cons]
      omega
    obtain ⟨hjoin, hmem⟩ := ih _ hdl ((a :: l).drop n) rfl
    constructor
    · simp only [List.flatten_cons, hjoin, List.take_append_drop]
    · intro c hc
      rcases List.mem_cons.mp hc with hc | hc
      · subst hc
        exact ⟨htake, by simp⟩
      · exact hmem c hc

/-- Claim C9: for every finite sequence `xs` and positive chunk size `n`, the
generator `chunk` yields chunks whose concatenation equals `xs`, every chunk
is non-empty, and every chunk has length at most `n`. -/
theorem chunk_spec (xs : List α) (n : Nat) (hn : 0 < n) :
    (chunk xs n).flatten = xs ∧ ∀ c ∈ chunk xs n, c ≠ [] ∧ c.length ≤ n :=
  chunk_pieces xs n hn

/-- Witness for C9 at a concrete sequence and chunk size. -/
theorem chunk_spec_witness :
    (chunk [1, 2, 3] 2).flatten = [1, 2, 3] ∧
      ∀ c ∈ chunk [1, 2, 3] 2, c ≠ [] ∧ c.length ≤ 2 :=
  chunk_spec [1, 2, 3] 2 (by decide)

theorem encode_fold_error (enc : Option (Bytes → Bytes)) (lookup : Bytes → Nat)
    (keys : List Bytes) (acc : List (Nat × List Bytes))
    (hbig : ∃ k ∈ keys, MAX_KEY_SIZE < (applyEncoding enc k).length) :
    keys.foldlM (fun acc key => do
        let k ← _encode_key enc key
        pure (dictAppend acc (lookup k) k)) acc =
      .error (.memcachedError R_key_too_large) := by
  induction keys generalizing acc with
  | nil => simp at hbig
  | cons k ks ih =>
    by_cases hk : MAX_KEY_SIZE < (applyEncoding enc k).length
    · rw [List.foldlM_cons, encode_key_err hk]
      rfl
    · rcases hbig with ⟨k', hk', hbig'⟩
      rcases List.mem_cons.mp hk' with rfl | hmem
      · exact absurd hbig' hk
      · rw [List.foldlM_cons, encode_key_ok hk]
        exact ih _ ⟨k', hmem, hbig'⟩

/-- Claim C7: keys whose encoded form is at most `MAX_KEY_SIZE = 250` bytes
pass validation and come back encoded; longer keys raise the client-side
`MemcachedError` with code `R._key_too_large`; and in the multi-operation
pipelines an oversized key aborts the run during the grouping stage, before
any request frame is produced. -/
theorem encode_key_spec (enc : Option (Bytes → Bytes)) (key : Bytes) :
    ((applyEncoding enc key).length ≤ 250 →
      _encode_key enc key = .ok (applyEncoding enc key)) ∧
    (250 < (applyEncoding enc key).length →
      _encode_key enc key = .error (.memcachedError R_key_too_large)) ∧
    (∀ (lookup : Bytes → Nat) (keys : List Bytes),
      (∃ k ∈ keys, 250 < (applyEncoding enc k).length) →
      gmulti_sent enc lookup keys none = .error (.memcachedError R_key_too_large) ∧
      dmulti_sent enc lookup keys none = .error (.memcachedError R_key_too_large)) := by
  refine ⟨?_, ?_, ?_⟩
  · intro h
    exact encode_key_ok (by simp only [MAX_KEY_SIZE]; omega)
  · intro h
    exact encode_key_err (by simp only [MAX_KEY_SIZE]; omega)
  · intro lookup keys hbig
    have hrun := encode_fold_error enc lookup keys []
      (by simpa [MAX_KEY_SIZE] using hbig)
    have ht : gmulti_tasks enc lookup keys none = .error (.memcachedError R_key_too_large) := by
      unfold gmulti_tasks gmulti_groups
      rw [hrun]
      rfl
    have htd : dmulti_tasks enc lookup keys none = .error (.memcachedError R_key_too_large) := by
      unfold dmulti_tasks dmulti_groups
      rw [hrun]
      rfl
    constructor
    · unfold gmulti_sent
      rw [ht]
      rfl
    · unfold dmulti_sent
      rw [htd]
      rfl

/-- Witness for C7: a 250-byte key passes, a 251-byte key raises, and a
multi-get over the 251-byte key errors before producing any frame. -/
theorem encode_key_spec_witness :
    _encode_key none (List.replicate 250 0) = .ok (List.replicate 250 0) ∧
    _encode_key none (List.replicate 251 0) = .error (.memcachedError R_key_too_large) ∧
    gmulti_sent none (fun _ => 0) [List.replicate 251 0] none =
      .error (.memcachedError R_key_too_large) :=
  ⟨(encode_key_spec none (List.replicate 250 0)).1
     (by simp only [applyEncoding, List.length_replicate]; omega),
   (encode_key_spec none (List.replicate 251 0)).2.1
     (by simp only [applyEncoding, List.length_replicate]; omega),
   ((encode_key_spec none (List.replicate 251 0)).2.2 (fun _ => 0) [List.replicate 251 0]
     ⟨List.replicate 251 0, List.mem_singleton_self _,
      by simp only [applyEncoding, List.length_replicate]; omega⟩).1⟩

/-- Configuration with no compressor and a trivial object codec, used for
concrete evaluation. -/
def cfgPlain : Cfg Unit :=
  { encode_fn := fun _ => []
    decode_fn := fun _ => ()
    compress_fn := none
    decompress_fn := none }

/-- Claim C4 counterexample: serializing the one-byte raw string `[97]` with
no compressor configured returns flags `8` (the COMPRESSED bit), not flags
`0` as the claim states; only the payload bytes are unchanged. -/
theorem serialize_compressed_counterexample :
    _serialize cfgPlain (Val.str [97]) = (8, [97]) ∧
      (_serialize cfgPlain (Val.str [97])).1 ≠ 0 := by
  constructor <;> decide

/-- Claim C4 (amended): for every configuration — a compressor configured or
not — `_serialize` ors the COMPRESSED flag into every non-numeric value's
flags (flags `8` for a raw byte string, `9 = PICKLED ||| COMPRESSED` for any
other object), the payload going through `_compress`; when no compressor is
configured the payload bytes are moreover unchanged, and numeric values
never carry COMPRESSED. -/
theorem serialize_compressed_flag (c : Cfg Obj) :
    (∀ s : Bytes, _serialize c (Val.str s) = (F_compressed, _compress c s)) ∧
    (∀ o : Obj, _serialize c (Val.obj o) =
      (F_pickle ||| F_compressed, _compress c (c.encode_fn o))) ∧
    (c.compress_fn = none →
      (∀ s : Bytes, _serialize c (Val.str s) = (F_compressed, s)) ∧
      (∀ o : Obj, _serialize c (Val.obj o) = (F_pickle ||| F_compressed, c.encode_fn o))) ∧
    (∀ n : Int, _serialize c (Val.int n) = (F_int, str_of_int n) ∧
      _serialize c (Val.long n) = (F_long, str_of_int n)) := by
  have hstr : ∀ s : Bytes, _serialize c (Val.str s) = (F_compressed, _compress c s) := by
    intro s
    simp only [_serialize]
    rw [if_neg (by decide), Nat.zero_or]
  have hobj : ∀ o : Obj, _serialize c (Val.obj o) =
      (F_pickle ||| F_compressed, _compress c (c.encode_fn o)) := by
    intro o
    simp only [_serialize]
    rw [if_neg (by decide), Nat.zero_or]
  refine ⟨hstr, hobj, fun hc => ?_, fun n => ⟨?_, ?_⟩⟩
  · have hcomp : ∀ v : Bytes, _compress c v = v := by
      intro v
      simp only [_compress, hc]
    exact ⟨fun s => (hstr s).trans (by rw [hcomp]),
           fun o => (hobj o).trans (by rw [hcomp])⟩
  · simp only [_serialize]
    rw [if_pos (by decide), Nat.zero_or]
  · simp only [_serialize]
    rw [if_pos (by decide), Nat.zero_or]

/-- Configuration with a prepend-one-byte compressor and its inverse, used
for concrete evaluation of the configured-compressor case. -/
def cfgZip : Cfg Unit :=
  { encode_fn := fun _ => []
    decode_fn := fun _ => ()
    compress_fn := some (fun b => 0 :: b)
    decompress_fn := some List.tail }

/-- Witness for the amended C4: with a compressor configured the COMPRESSED
flag is set and the payload is the compressed bytes; with no compressor the
flag is still set and the bytes are unchanged; a numeric value carries no
COMPRESSED bit. -/
theorem serialize_compressed_flag_witness :
    _serialize cfgZip (Val.str [97]) = (F_compressed, [0, 97]) ∧
    _serialize cfgPlain (Val.str [97]) = (F_compressed, [97]) ∧
    _serialize cfgPlain (Val.int 7) = (F_int, str_of_int 7) :=
  ⟨((serialize_compressed_flag cfgZip).1 [97]).trans rfl,
   ((serialize_compressed_flag cfgPlain).2.2.1 rfl).1 [97],
   ((serialize_compressed_flag cfgPlain).2.2.2 7).1⟩

/-- Claim C8: the retry wrapper reacts to a connection-closed error by
clearing the idle connections of every pool in the ring (a cleared pool is
empty) and calling the wrapped method exactly once more; a connection-closed
error from that retry is returned to the caller with no further retry. -/
theorem instance_reconnect_spec {Conn α : Type}
    (method : List (List Conn) → Except Err (α × List (List Conn)))
    (pools : List (List Conn)) :
    (∀ q : List Conn, clear_pool q = []) ∧
    (method pools = .error .connectionClosed →
      instance_reconnect method pools = method (pools.map clear_pool)) ∧
    (method pools = .error .connectionClosed →
      method (pools.map clear_pool) = .error .connectionClosed →
      instance_reconnect method pools = .error .connectionClosed) := by
  refine ⟨fun q => ?_, fun h => ?_, fun h h2 => ?_⟩
  · cases q <;> simp [clear_pool]
  · simp [instance_reconnect, h]
  · simp [instance_reconnect, h, h2]

/-- Witness for C8: a method that always reports a closed connection makes
the wrapper return that error after one retry. -/
theorem instance_reconnect_spec_witness :
    instance_reconnect
        (fun _ : List (List Nat) =>
          (.error .connectionClosed : Except Err (Unit × List (List Nat)))) [[0]] =
      .error .connectionClosed :=
  (instance_reconnect_spec
    (fun _ => (.error .connectionClosed : Except Err (Unit × List (List Nat)))) [[0]]).2.2 rfl rfl

theorem natDigits_ne_nil (n : Nat) : natDigits n ≠ [] := by
  rw [natDigits]
  split
  · simp
  · simp

theorem parseDigits_natDigits (n : Nat) : parseDigits (natDigits n) = n := by
  induction n using Nat.strong_induction_on with
  | _ n ih =>
  rw [natDigits]
  split
  · simp [parseDigits]
  · rename_i h
    have hdiv := ih (n / 10) (Nat.div_lt_self (by omega) (by omega))
    rw [parseDigits, List.foldl_append]
    rw [parseDigits] at hdiv
    simp only [List.foldl_cons, List.foldl_nil, hdiv]
    omega

theorem map_sub_map_add (l : List Nat) : (l.map (48 + ·)).map (· - 48) = l := by
  induction l with
  | nil => rfl
  | cons d ds ihl => simp [ihl]

theorem int_of_str_str_of_int (i : Int) : int_of_str (str_of_int i) = i := by
  by_cases hi : i < 0
  · rw [str_of_int, if_pos hi, int_of_str]
    simp only [List.head?_cons]
    rw [if_pos trivial]
    simp only [List.tail_cons, map_sub_map_add, parseDigits_natDigits]
    omega
  · rw [str_of_int, if_neg hi, int_of_str]
    obtain ⟨d, ds, hds⟩ : ∃ d ds, natDigits i.natAbs = d :: ds := by
      rcases hnn : natDigits i.natAbs with _ | ⟨d, ds⟩
      · exact absurd hnn (natDigits_ne_nil _)
      · exact ⟨d, ds, rfl⟩
    rw [if_neg (by simp [hds]; omega)]
    simp only [map_sub_map_add, parseDigits_natDigits]
    omega

theorem serialize_str (c : Cfg Obj) (s : Bytes) :
    _serialize c (Val.str s) = (F_compressed, _compress c s) := by
  simp only [_serialize]
  rw [if_neg (by decide), Nat.zero_or]

theorem serialize_obj (c : Cfg Obj) (o : Obj) :
    _serialize c (Val.obj o) = (F_pickle ||| F_compressed, _compress c (c.encode_fn o)) := by
  simp only [_serialize]
  rw [if_neg (by decide), Nat.zero_or]

theorem serialize_int (c : Cfg Obj) (n : Int) :
    _serialize c (Val.int n) = (F_int, str_of_int n) := by
  simp only [_serialize]
  rw [if_pos (by decide), Nat.zero_or]

theorem serialize_long (c : Cfg Obj) (n : Int) :
    _serialize c (Val.long n) = (F_long, str_of_int n) := by
  simp only [_serialize]
  rw [if_pos (by decide), Nat.zero_or]

theorem deserialize_compressed_only (c : Cfg Obj) (value : Bytes) :
    _deserialize c value F_compressed = Val.str (_decompress c value) := by
  simp only [_deserialize,
    (by decide : F_compressed &&& F_compressed = 8),
    (by decide : F_compressed &&& F_int = 0),
    (by decide : F_compressed &&& F_long = 0),
    (by decide : F_compressed &&& F_pickle = 0)]
  simp

theorem deserialize_int_flag (c : Cfg Obj) (value : Bytes) :
    _deserialize c value F_int = Val.int (int_of_str value) := by
  simp only [_deserialize,
    (by decide : F_int &&& F_compressed = 0),
    (by decide : F_int &&& F_int = 2)]
  simp

theorem deserialize_long_flag (c : Cfg Obj) (value : Bytes) :
    _deserialize c value F_long = Val.long (int_of_str value) := by
  simp only [_deserialize,
    (by decide : F_long &&& F_compressed = 0),
    (by decide : F_long &&& F_int = 0),
    (by decide : F_long &&& F_long = 4)]
  simp

theorem deserialize_pickle_compressed (c : Cfg Obj) (value : Bytes) :
    _deserialize c value (F_pickle ||| F_compressed) =
      Val.obj (c.decode_fn (_decompress c value)) := by
  simp only [_deserialize,
    (by decide : (F_pickle ||| F_compressed) &&& F_compressed = 8),
    (by decide : (F_pickle ||| F_compressed) &&& F_int = 0),
    (by decide : (F_pickle ||| F_compressed) &&& F_long = 0),
    (by decide : (F_pickle ||| F_compressed) &&& F_pickle = 1)]
  simp

/-- Claim C5: for every serializable value (byte string, int, long, or any
object on which `decode_fn` inverts `encode_fn`, with `decompress_fn`
inverting `compress_fn`), `_deserialize` applied to the flags and bytes that
`_serialize` produced returns the original value. -/
theorem serialize_deserialize_roundtrip (c : Cfg Obj)
    (hcomp : ∀ b, _decompress c (_compress c b) = b)
    (henc : ∀ o, c.decode_fn (c.encode_fn o) = o) (v : Val Obj) :
    _deserialize c (_serialize c v).2 (_serialize c v).1 = v := by
  cases v with
  | str s =>
    rw [serialize_str, deserialize_compressed_only, hcomp]
  | int n =>
    rw [serialize_int, deserialize_int_flag, int_of_str_str_of_int]
  | long n =>
    rw [serialize_long, deserialize_long_flag, int_of_str_str_of_int]
  | obj o =>
    rw [serialize_obj, deserialize_pickle_compressed, hcomp, henc]

/-- Witness for C5 at the trivial configuration and concrete values of each
runtime type. -/
theorem serialize_deserialize_roundtrip_witness :
    _deserialize cfgPlain (_serialize cfgPlain (Val.int (-42))).2
        (_serialize cfgPlain (Val.int (-42))).1 = Val.int (-42) ∧
    _deserialize cfgPlain (_serialize cfgPlain (Val.str [97, 98])).2
        (_serialize cfgPlain (Val.str [97, 98])).1 = Val.str [97, 98] :=
  ⟨serialize_deserialize_roundtrip cfgPlain (fun _ => rfl) (fun _ => rfl) (Val.int (-42)),
   serialize_deserialize_roundtrip cfgPlain (fun _ => rfl) (fun _ => rfl) (Val.str [97, 98])⟩

/-- Claim C10: with an empty key collection and no hashkey override,
`get_multi` returns the empty mapping and `set_multi` / `delete_multi`
return the empty failure list, and none of them produces a single request
frame. -/
theorem multi_empty_spec (c : Cfg Obj) (enc : Option (Bytes → Bytes))
    (lookup : Bytes → Nat) (net : List (List RespFrame)) (expire : Nat) :
    gmulti_run c enc lookup [] none net = .ok (some []) ∧
    gmulti_sent enc lookup [] none = .ok [] ∧
    smulti_run enc lookup ([] : List (Bytes × Val Obj)) none net = .ok (some []) ∧
    smulti_sent c enc lookup [] none expire = .ok [] ∧
    dmulti_run enc lookup [] none net = .ok (some []) ∧
    dmulti_sent enc lookup [] none = .ok [] := by
  exact ⟨rfl, rfl, rfl, rfl, rfl, rfl⟩

/-- Concrete 1001-entry key/value map (keys are the distinct decimal digit
strings of 0..1000), for exercising the unchunked set path. -/
def bigKvmap : List (Bytes × Val Unit) :=
  (List.range 1001).map (fun i => (natDigits i, Val.str []))

theorem bigKvmap_length : bigKvmap.length = 1001 := by
  simp [bigKvmap]

/-- Claim C2 counterexample: `set_multi` over a 1001-entry map (grouped onto
one server by a hashkey override) pipelines a single batch of 1001 requests:
the set path never chunks, so a pipelined batch exceeds 1000 requests. -/
theorem smulti_no_chunking_counterexample :
    smulti_tasks none (fun _ => 0) bigKvmap (some [107]) = .ok [bigKvmap] ∧
      ∃ t, smulti_tasks none (fun _ => 0) bigKvmap (some [107]) = .ok [t] ∧
        1000 < t.length := by
  refine ⟨rfl, bigKvmap, rfl, ?_⟩
  rw [bigKvmap_length]
  omega

/-- Claim C2 (amended): only `get_multi` splits its per-server groups into
chunks of at most 1000 requests before pipelining (so no get batch exceeds
1000); `set_multi` / `add_multi` / `replace_multi` (via `_smulti_helper`) and
`delete_multi` submit each group whole as one pipelined batch, with no
chunking on either the hashkey or the per-server grouping path. -/
theorem multi_chunking (enc : Option (Bytes → Bytes)) (lookup : Bytes → Nat) :
    (∀ (keys : List Bytes) (hk : Option Bytes) (tasks : List (List Bytes)),
      gmulti_tasks enc lookup keys hk = .ok tasks → ∀ t ∈ tasks, t.length ≤ 1000) ∧
    (∀ (kvmap : List (Bytes × Val Obj)) (b : Bytes),
      smulti_tasks enc lookup kvmap (some b) = .ok [kvmap]) ∧
    (∀ kvmap : List (Bytes × Val Obj),
      smulti_tasks enc lookup kvmap none =
        Except.map (List.map Prod.snd) (smulti_groups enc lookup kvmap)) ∧
    (∀ (keys : List Bytes) (b : Bytes),
      dmulti_tasks enc lookup keys (some b) = .ok [keys]) ∧
    (∀ keys : List Bytes,
      dmulti_tasks enc lookup keys none =
        Except.map (List.map Prod.snd) (dmulti_groups enc lookup keys)) := by
  refine ⟨?_, fun kvmap b => rfl, ?_, fun keys b => rfl, ?_⟩
  · intro keys hk tasks h t ht
    have hex : ∃ groups : List (List Bytes),
        tasks = groups.flatMap (fun g => chunk g 1000) := by
      cases hk with
      | some b => exact ⟨[keys], (Except.ok.inj h).symm⟩
      | none =>
        rcases hg : gmulti_groups enc lookup keys with e | g
        · unfold gmulti_tasks at h
          rw [hg] at h
          cases h
        · unfold gmulti_tasks at h
          rw [hg] at h
          exact ⟨g.map Prod.snd, (Except.ok.inj h).symm⟩
    obtain ⟨groups, rfl⟩ := hex
    obtain ⟨g, _, htg⟩ := List.mem_flatMap.mp ht
    exact ((chunk_pieces g 1000 (by omega)).2 t htg).2
  · intro kvmap
    rcases hg : smulti_groups enc lookup kvmap with e | g
    · unfold smulti_tasks
      rw [hg]
      rfl
    · unfold smulti_tasks
      rw [hg]
      rfl
  · intro keys
    rcases hg : dmulti_groups enc lookup keys with e | g
    · unfold dmulti_tasks
      rw [hg]
      rfl
    · unfold dmulti_tasks
      rw [hg]
      rfl

/-- Witness for the amended C2: a concrete two-key multi-get forms a single
chunk within the bound. -/
theorem multi_chunking_witness :
    ∀ t ∈ ([[[1], [2]]] : List (List Bytes)), t.length ≤ 1000 :=
  (@multi_chunking Unit none (fun _ => 0)).1 [[1], [2]] none [[[1], [2]]]
    (by
      have h1 : List.take 1000 ([[1], [2]] : List Bytes) = [[1], [2]] := rfl
      have h2 : List.drop 1000 ([[1], [2]] : List Bytes) = [] := rfl
      have hc : chunk ([[1], [2]] : List Bytes) 1000 = [[[1], [2]]] := by
        rw [chunk_of_take_ne_nil (by rw [h1]; exact List.cons_ne_nil _ _), h1, h2, chunk_nil]
      show Except.ok (chunk ([[1], [2]] : List Bytes) 1000 ++ []) = Except.ok [[[1], [2]]]
      rw [hc, List.append_nil])

theorem parseHex_hexDigits_aux (d : Bytes) (a : Nat) :
    List.foldl (fun a x => a * 16 + x) a (hexDigits d) =
      List.foldl (fun a b => a * 256 + b) a d := by
  induction d generalizing a with
  | nil => rfl
  | cons b bs ih =>
    simp only [hexDigits, List.flatMap_cons, List.cons_append, List.nil_append,
      List.foldl_cons]
    rw [show hexDigits bs = bs.flatMap (fun b => [b / 16, b % 16]) from rfl] at ih
    rw [ih]
    congr 1
    omega

theorem parseHex_hexDigits (d : Bytes) : parseHex (hexDigits d) = beInt d :=
  parseHex_hexDigits_aux d 0

theorem min?_eq_head?_of_sorted {l : List Nat} (hs : l.Pairwise (· ≤ ·)) :
    l.min? = l.head? := by
  induction l with
  | nil => rfl
  | cons y ys ih =>
    obtain ⟨hy, hys⟩ := List.pairwise_cons.mp hs
    rw [List.min?_cons]
    rcases ys with _ | ⟨z, zs⟩
    · rfl
    · rw [ih hys]
      simp only [List.head?_cons, Option.elim]
      rw [min_eq_left (hy z (List.mem_cons_self z zs))]

theorem get?_bisect_left (l : List Nat) (x : Nat) :
    l.get? (bisect_left l x) = (l.filter (fun p => x ≤ p)).head? := by
  induction l with
  | nil => rfl
  | cons y ys ih =>
    by_cases hy : y < x
    · rw [bisect_left, if_pos hy, List.get?_cons_succ, ih,
        List.filter_cons_of_neg (by simpa using by omega)]
    · rw [bisect_left, if_neg hy, List.get?_cons_zero,
        List.filter_cons_of_pos (by simpa using by omega), List.head?_cons]

theorem pairwise_le_getLast {l : List Nat} (hs : l.Pairwise (· ≤ ·)) :
    ∀ p ∈ l, ∀ x, l.getLast? = some x → p ≤ x := by
  induction l with
  | nil => intro p hp; cases hp
  | cons y ys ih =>
    intro p hp x hx
    obtain ⟨hy, hys⟩ := List.pairwise_cons.mp hs
    rcases ys with _ | ⟨z, zs⟩
    · simp only [List.getLast?_singleton, Option.some.injEq] at hx
      simp only [List.mem_singleton] at hp
      omega
    · rw [List.getLast?_cons_cons] at hx
      have hx_mem : x ∈ z :: zs :=
        List.mem_of_mem_getLast? (by rw [hx]; exact rfl)
      rcases List.mem_cons.mp hp with rfl | hp'
      · exact hy x hx_mem
      · exact ih hys p hp' x hx

theorem dictGet_mem_of_some [DecidableEq κ] {m : List (κ × ν)} {k : κ} {v : ν}
    (h : dictGet m k = some v) : ∃ kv ∈ m, kv.2 = v := by
  rw [dictGet] at h
  rcases hf : m.find? (fun kv => kv.1 = k) with _ | kv
  · rw [hf] at h
    cases h
  · rw [hf] at h
    exact ⟨kv, List.mem_of_find?_eq_some hf, Option.some.inj h⟩

/-- Written from the specification text of C3, for comparison with
`get_node`: return the endpoint mapped at the least hash point that is at
least the key's hash; when the hash exceeds every point, wrap around to the
endpoint at the smallest point. -/
def ringLookupSpec (ring : List (Nat × Node)) (sorted : List Nat) (h : Nat) : Option Node :=
  match (sorted.filter (fun p => h ≤ p)).min? with
  | some p => dictGet ring p
  | none => sorted.min?.bind (dictGet ring)

/-- Claim C3: on a ring with at least one registered server (non-empty
sorted key list, sorted; every point mapped; on the single-node fast path all
points map to the same node, as `add_node` guarantees), `get_node` returns
the endpoint at the least hash point `≥ hash(key)`, wrapping to the endpoint
at the smallest point when the hash exceeds the largest; and the hash is the
MD5 digest read as an unsigned big-endian integer
(`long(hexdigest, 16)` equals the big-endian byte value). -/
theorem get_node_spec (hk : Bytes → Nat) (ch : ConsistentHash) (key : Bytes)
    (hne : ch.sorted_keys ≠ [])
    (hsort : ch.sorted_keys.Pairwise (· ≤ ·))
    (hsingle : ch.single_node = true →
      ∀ kv ∈ ch.ring, ∀ kv' ∈ ch.ring, Prod.snd kv = Prod.snd kv')
    (hcov : ∀ p ∈ ch.sorted_keys, (dictGet ch.ring p).isSome) :
    get_node hk ch key = ringLookupSpec ch.ring ch.sorted_keys (hk key) ∧
    (∀ (md5 : Bytes → Bytes) (k : Bytes), hashkey md5 k = beInt (md5 k)) := by
  refine ⟨?_, fun md5 k => parseHex_hexDigits (md5 k)⟩
  unfold get_node ringLookupSpec
  cases hsn : ch.single_node with
  | true =>
    rw [if_pos rfl]
    rcases hmin : (ch.sorted_keys.filter (fun p => hk key ≤ p)).min? with _ | p
    · rw [min?_eq_head?_of_sorted hsort]
    · have hp_mem : p ∈ ch.sorted_keys := by
        have hmem := List.min?_mem (fun a b => min_choice a b) hmin
        exact (List.mem_filter.mp hmem).1
      obtain ⟨v, hv⟩ := Option.isSome_iff_exists.mp (hcov p hp_mem)
      have hhead_mem : ch.sorted_keys.head hne ∈ ch.sorted_keys := List.head_mem hne
      obtain ⟨vh, hvh⟩ := Option.isSome_iff_exists.mp (hcov _ hhead_mem)
      obtain ⟨kvp, hkvp_mem, hkvp2⟩ := dictGet_mem_of_some hv
      obtain ⟨kvh, hkvh_mem, hkvh2⟩ := dictGet_mem_of_some hvh
      rw [List.head?_eq_head hne, Option.some_bind]
      show dictGet ch.ring (ch.sorted_keys.head hne) = dictGet ch.ring p
      rw [hv, hvh, ← hkvp2, ← hkvh2]
      exact congrArg some (hsingle hsn kvh hkvh_mem kvp hkvp_mem)
  | false =>
    rw [if_neg Bool.false_ne_true]
    rw [List.getLast?_eq_getLast _ hne]
    dsimp only []
    by_cases hgt : hk key > ch.sorted_keys.getLast hne
    · rw [if_pos hgt]
      have hfil : ch.sorted_keys.filter (fun p => hk key ≤ p) = [] := by
        rw [List.filter_eq_nil_iff]
        intro a ha
        have := pairwise_le_getLast hsort a ha (ch.sorted_keys.getLast hne)
          (List.getLast?_eq_getLast _ hne)
        simp only [decide_eq_true_eq]
        omega
      rw [hfil, min?_eq_head?_of_sorted hsort]
      rfl
    · rw [if_neg hgt, get?_bisect_left]
      have hlast_f : ch.sorted_keys.getLast hne ∈
          ch.sorted_keys.filter (fun p => hk key ≤ p) := by
        rw [List.mem_filter]
        exact ⟨List.getLast_mem hne, by simp only [decide_eq_true_eq]; omega⟩
      have hfne := List.ne_nil_of_mem hlast_f
      rw [min?_eq_head?_of_sorted (hsort.filter _), List.head?_eq_head hfne,
        Option.some_bind]

/-- Witness for C3 on a concrete two-node ring and a concrete hash. -/
theorem get_node_spec_witness :
    get_node (fun b => b.length) ⟨1, [(5, 0), (9, 1)], [5, 9], false⟩ [1, 2, 3, 4, 5, 6, 7] =
      ringLookupSpec [(5, 0), (9, 1)] [5, 9] 7 ∧
    hashkey (fun _ => [171, 205]) [] = beInt [171, 205] :=
  ⟨(get_node_spec (fun b => b.length) ⟨1, [(5, 0), (9, 1)], [5, 9], false⟩ [1, 2, 3, 4, 5, 6, 7]
      (by decide) (by decide) (by decide) (by decide)).1,
   (get_node_spec (fun b => b.length) ⟨1, [(5, 0), (9, 1)], [5, 9], false⟩ [1, 2, 3, 4, 5, 6, 7]
      (by decide) (by decide) (by decide) (by decide)).2 (fun _ => [171, 205]) []⟩

/-- Ring state after registering the same node twice with one replica and a
fixed hash (any hash function sends the identical replica string to the
identical point, so a constant hash exhibits the repeat-add behaviour). -/
def chDup : ConsistentHash :=
  add_node (fun _ => 5) (fun _ => [])
    (add_node (fun _ => 5) (fun _ => []) (ConsistentHash.init 1) 0) 0

theorem mergeSort_le_of_sorted {l : List Nat} (h : l.Pairwise (· ≤ ·)) :
    l.mergeSort (fun a b => decide (a ≤ b)) = l :=
  List.mergeSort_of_sorted (h.imp (fun hab => by simpa using hab))

theorem chDup_sorted : chDup.sorted_keys = [5, 5] := by
  show ((((ConsistentHash.init 1).sorted_keys ++
      nodePoints (fun _ => 5) (fun _ => []) 1 0).mergeSort (fun a b => decide (a ≤ b)) ++
      nodePoints (fun _ => 5) (fun _ => []) 1 0).mergeSort (fun a b => decide (a ≤ b))) = [5, 5]
  rw [show (ConsistentHash.init 1).sorted_keys ++
      nodePoints (fun _ => 5) (fun _ => []) 1 0 = [5] from rfl]
  rw [@mergeSort_le_of_sorted [5] (by decide)]
  rw [show ([5] ++ nodePoints (fun _ => 5) (fun _ => []) 1 0 : List Nat) = [5, 5] from rfl]
  exact mergeSort_le_of_sorted (by decide)

/-- Claim C6 counterexample: `add_node` never dedupes `sorted_keys`, so
adding the same node twice leaves the duplicate point `[5, 5]` in
`sorted_keys`: the sequence is neither strictly sorted nor duplicate-free
(while the mapping keeps the single key 5). -/
theorem add_node_dup_counterexample :
    chDup.sorted_keys = [5, 5] ∧ ¬ List.Chain' (· < ·) chDup.sorted_keys ∧
      ¬ chDup.sorted_keys.Nodup := by
  refine ⟨chDup_sorted, ?_, ?_⟩
  · rw [chDup_sorted, List.chain'_iff_pairwise]
    decide
  · rw [chDup_sorted]
    decide

theorem dictSet_map_fst_of_not_mem [DecidableEq κ] {m : List (κ × ν)} {k : κ}
    (h : k ∉ m.map Prod.fst) (v : ν) :
    (dictSet m k v).map Prod.fst = m.map Prod.fst ++ [k] := by
  have hany : m.any (fun kv => kv.1 = k) ≠ true := by
    intro hc
    obtain ⟨kv, hkv, hk1⟩ := List.any_eq_true.mp hc
    rw [decide_eq_true_eq] at hk1
    exact h (hk1 ▸ List.mem_map_of_mem Prod.fst hkv)
  rw [dictSet, if_neg hany]
  simp

theorem ring_fold_map_fst (pts : List Nat) (node : Node) (r : List (Nat × Node))
    (hdisj : ∀ p ∈ pts, p ∉ r.map Prod.fst) (hnd : pts.Nodup) :
    (pts.foldl (fun r key => dictSet r key node) r).map Prod.fst =
      r.map Prod.fst ++ pts := by
  induction pts generalizing r with
  | nil => simp
  | cons p ps ih =>
    rw [List.foldl_cons]
    have hstep := dictSet_map_fst_of_not_mem (hdisj p (List.mem_cons_self p ps)) node
    have hdisj' : ∀ q ∈ ps, q ∉ (dictSet r p node).map Prod.fst := by
      intro q hq
      rw [hstep]
      simp only [List.mem_append, List.mem_singleton, not_or]
      refine ⟨hdisj q (List.mem_cons_of_mem p hq), ?_⟩
      intro hqp
      exact (List.nodup_cons.mp hnd).1 (hqp ▸ hq)
    rw [ih _ hdisj' (List.nodup_cons.mp hnd).2, hstep, List.append_assoc]
    rfl

/-- State after a sequence of `add_node` calls from a fresh ring. -/
def addAll (hk : Bytes → Nat) (ns : Node → Bytes) (replicas : Nat)
    (nodes : List Node) : ConsistentHash :=
  nodes.foldl (add_node hk ns) (ConsistentHash.init replicas)

/-- All hash points generated by a sequence of `add_node` calls. -/
def allPoints (hk : Bytes → Nat) (ns : Node → Bytes) (replicas : Nat)
    (nodes : List Node) : List Nat :=
  nodes.flatMap (nodePoints hk ns replicas)

theorem mergeSort_le_pairwise (l : List Nat) :
    (l.mergeSort (fun a b => decide (a ≤ b))).Pairwise (· ≤ ·) := by
  have h := @List.sorted_mergeSort Nat (fun a b => decide (a ≤ b))
    (fun a b c hab hbc => by
      simp only [decide_eq_true_eq] at hab hbc ⊢
      omega)
    (fun a b => by
      simp only [Bool.or_eq_true, decide_eq_true_eq]
      omega) l
  exact h.imp (fun hab => by simpa using hab)

theorem add_node_replicas (hk : Bytes → Nat) (ns : Node → Bytes)
    (ch : ConsistentHash) (node : Node) :
    (add_node hk ns ch node).replicas = ch.replicas := rfl

theorem fold_add_node_inv (hk : Bytes → Nat) (ns : Node → Bytes)
    (nodes : List Node) (ch : ConsistentHash)
    (hnd : (ch.ring.map Prod.fst ++
      nodes.flatMap (nodePoints hk ns ch.replicas)).Nodup)
    (hperm : ch.sorted_keys.Perm (ch.ring.map Prod.fst))
    (hsorted : ch.sorted_keys.Pairwise (· ≤ ·)) :
    ((nodes.foldl (add_node hk ns) ch).ring.map Prod.fst =
      ch.ring.map Prod.fst ++ nodes.flatMap (nodePoints hk ns ch.replicas)) ∧
    (nodes.foldl (add_node hk ns) ch).sorted_keys.Perm
      (ch.ring.map Prod.fst ++ nodes.flatMap (nodePoints hk ns ch.replicas)) ∧
    (nodes.foldl (add_node hk ns) ch).sorted_keys.Pairwise (· ≤ ·) := by
  induction nodes generalizing ch with
  | nil =>
    simp only [List.foldl_nil, List.flatMap_nil, List.append_nil]
    exact ⟨trivial, hperm, hsorted⟩
  | cons nd nds ih =>
    rw [List.foldl_cons, List.flatMap_cons]
    rw [List.flatMap_cons] at hnd
    have hpts_nd : (nodePoints hk ns ch.replicas nd).Nodup :=
      hnd.sublist
        ((List.sublist_append_left (nodePoints hk ns ch.replicas nd)
            (nds.flatMap (nodePoints hk ns ch.replicas))).trans
          (List.sublist_append_right _ _))
    have hdisj : ∀ p ∈ nodePoints hk ns ch.replicas nd, p ∉ ch.ring.map Prod.fst := by
      intro p hp hpR
      obtain ⟨-, -, hdis⟩ := List.nodup_append.mp hnd
      exact hdis hpR (List.mem_append_left _ hp)
    have hring' : (add_node hk ns ch nd).ring.map Prod.fst =
        ch.ring.map Prod.fst ++ nodePoints hk ns ch.replicas nd := by
      show ((nodePoints hk ns ch.replicas nd).foldl
          (fun r key => dictSet r key nd) ch.ring).map Prod.fst = _
      exact ring_fold_map_fst _ nd ch.ring hdisj hpts_nd
    have hsorted_eq : (add_node hk ns ch nd).sorted_keys =
        (ch.sorted_keys ++ nodePoints hk ns ch.replicas nd).mergeSort
          (fun a b => decide (a ≤ b)) := rfl
    have hperm' : (add_node hk ns ch nd).sorted_keys.Perm
        (ch.ring.map Prod.fst ++ nodePoints hk ns ch.replicas nd) := by
      rw [hsorted_eq]
      exact (List.mergeSort_perm _ _).trans (hperm.append (List.Perm.refl _))
    have hsorted' : (add_node hk ns ch nd).sorted_keys.Pairwise (· ≤ ·) := by
      rw [hsorted_eq]
      exact mergeSort_le_pairwise _
    have hnd'' : ((add_node hk ns ch nd).ring.map Prod.fst ++
        nds.flatMap (nodePoints hk ns (add_node hk ns ch nd).replicas)).Nodup := by
      rw [hring', add_node_replicas, List.append_assoc]
      exact hnd
    have hperm'' : (add_node hk ns ch nd).sorted_keys.Perm
        ((add_node hk ns ch nd).ring.map Prod.fst) := by
      rw [hring']
      exact hperm'
    obtain ⟨h1, h2, h3⟩ := ih (add_node hk ns ch nd) hnd'' hperm'' hsorted'
    rw [add_node_replicas] at h1 h2
    refine ⟨?_, ?_, h3⟩
    · rw [h1, hring', List.append_assoc]
    · rw [hring'] at h2
      rw [← List.append_assoc]
      exact h2

/-- Claim C6 (amended): over any sequence of `add_node` calls whose generated
hash points are pairwise distinct, `sorted_keys` is strictly sorted and is a
permutation of the mapping's key list; but `add_node` does not dedupe, so
re-adding an already-registered endpoint leaves duplicate entries in
`sorted_keys` (the counterexample) while the mapping itself is unchanged. -/
theorem add_node_invariant (hk : Bytes → Nat) (ns : Node → Bytes) (replicas : Nat)
    (nodes : List Node) (hnd : (allPoints hk ns replicas nodes).Nodup) :
    List.Chain' (· < ·) (addAll hk ns replicas nodes).sorted_keys ∧
    (addAll hk ns replicas nodes).sorted_keys.Perm
      ((addAll hk ns replicas nodes).ring.map Prod.fst) := by
  have hA : (ConsistentHash.init replicas).ring.map Prod.fst ++
      nodes.flatMap (nodePoints hk ns (ConsistentHash.init replicas).replicas) =
      allPoints hk ns replicas nodes := by
    show [] ++ nodes.flatMap (nodePoints hk ns replicas) = allPoints hk ns replicas nodes
    rw [List.nil_append]
    rfl
  obtain ⟨h1, h2, h3⟩ := fold_add_node_inv hk ns nodes (ConsistentHash.init replicas)
    (by rw [hA]; exact hnd) (List.Perm.refl _) List.Pairwise.nil
  rw [hA] at h1 h2
  have hfold : addAll hk ns replicas nodes =
      nodes.foldl (add_node hk ns) (ConsistentHash.init replicas) := rfl
  constructor
  · rw [hfold, List.chain'_iff_pairwise]
    have hnd_sorted : (nodes.foldl (add_node hk ns) (ConsistentHash.init replicas)).sorted_keys.Nodup :=
      h2.nodup_iff.mpr hnd
    exact (h3.and hnd_sorted).imp (fun hab => lt_of_le_of_ne hab.1 hab.2)
  · rw [hfold, h1]
    exact h2

/-- Witness for the amended C6: two distinct nodes with one replica each and
a length hash generate the distinct points 2 and 3, and the invariants
hold. -/
theorem add_node_invariant_witness :
    List.Chain' (· < ·)
      (addAll (fun b => b.length) (fun n => List.replicate n 7) 1 [0, 1]).sorted_keys ∧
    (addAll (fun b => b.length) (fun n => List.replicate n 7) 1 [0, 1]).sorted_keys.Perm
      ((addAll (fun b => b.length) (fun n => List.replicate n 7) 1 [0, 1]).ring.map
        Prod.fst) :=
  add_node_invariant (fun b => b.length) (fun n => List.replicate n 7) 1 [0, 1]
    (by
      have h0 : natDigits 0 = [0] := by
        rw [natDigits]
        norm_num
      show (([0, 1] : List Node).flatMap
        (nodePoints (fun b => b.length) (fun n => List.replicate n 7) 1)).Nodup
      simp only [nodePoints, replicaBytes, h0, List.range_succ, List.range_zero,
        List.nil_append, List.map_cons, List.map_nil, List.flatMap_cons,
        List.flatMap_nil, List.length_append, List.length_replicate,
        List.length_cons, List.length_nil, List.length_map]
      decide)

theorem getD_of_get? {l : List α} {n : Nat} {a : α} (h : l.get? n = some a) (d : α) :
    l.getD n d = a := by
  rw [List.getD_eq_get?, h]
  rfl

/-- Written from the specification text of C1 for `get_multi`: every received
no-error response stores its value under the key of the request whose index
equals the echoed opaque tag. -/
def gmulti_spec_fold (c : Cfg Obj) (sisterKeys : List Bytes) (resps : List RespFrame)
    (m : List (Bytes × Val Obj)) : List (Bytes × Val Obj) :=
  resps.foldl (fun m r =>
    if r.status = R_no_error then
      let fv := unpackFlagsValue r.extra
      dictSet m (sisterKeys.getD r.opq []) (_deserialize c fv.2 fv.1)
    else m) m

/-- Written from the specification text of C1 for `set_multi`: every response
hitting the failure predicate appends the key of the request whose index
equals the echoed opaque tag. -/
def smulti_spec_fold (ft : Nat → Bool) (items : List (Bytes × Val Obj))
    (resps : List RespFrame) (fl : List Bytes) : List Bytes :=
  resps.foldl (fun fl r =>
    if ft r.status then fl ++ [(items.map Prod.fst).getD r.opq []] else fl) fl

/-- Written from the specification text of C1 for `delete_multi`: every
non-zero-status response appends the key of the request whose index equals
the echoed opaque tag. -/
def dmulti_spec_fold (items : List Bytes) (resps : List RespFrame)
    (fl : List Bytes) : List Bytes :=
  resps.foldl (fun fl r =>
    if r.status ≠ R_no_error then fl ++ [items.getD r.opq []] else fl) fl

theorem gmulti_loop_run (c : Cfg Obj) (ks : List Bytes) (last_i : Nat)
    (pre : List RespFrame) (t : RespFrame) (rest : List RespFrame)
    (m : List (Bytes × Val Obj))
    (hpre : ∀ r ∈ pre, r.opq ≠ last_i)
    (ht : t.opq = last_i)
    (hin : ∀ r ∈ pre ++ [t], r.status = R_no_error → r.opq < ks.length) :
    gmulti_loop c ks last_i (pre ++ t :: rest) m =
      some (gmulti_spec_fold c ks (pre ++ [t]) m) := by
  induction pre generalizing m with
  | nil =>
    simp only [List.nil_append]
    simp only [gmulti_loop, gmulti_spec_fold, List.foldl_cons, List.foldl_nil]
    by_cases hst : t.status = R_no_error
    · have hlt := hin t (List.mem_singleton_self t) hst
      obtain ⟨a, ha⟩ : ∃ a, ks.get? t.opq = some a := ⟨_, List.get?_eq_get hlt⟩
      rw [if_pos hst, if_pos hst, ha, getD_of_get? ha]
      simp only [if_pos ht]
    · rw [if_neg hst, if_neg hst]
      simp only [if_pos ht]
  | cons r pre ih =>
    simp only [List.cons_append]
    simp only [gmulti_loop, gmulti_spec_fold, List.foldl_cons]
    have hr_ne : r.opq ≠ last_i := hpre r (List.mem_cons_self r pre)
    have hpre' : ∀ q ∈ pre, q.opq ≠ last_i := fun q hq => hpre q (List.mem_cons_of_mem r hq)
    have hin' : ∀ q ∈ pre ++ [t], q.status = R_no_error → q.opq < ks.length := by
      intro q hq
      exact hin q (by rw [List.cons_append]; exact List.mem_cons_of_mem r hq)
    by_cases hst : r.status = R_no_error
    · have hlt := hin r (by rw [List.cons_append]; exact List.mem_cons_self r _) hst
      obtain ⟨a, ha⟩ : ∃ a, ks.get? r.opq = some a := ⟨_, List.get?_eq_get hlt⟩
      rw [if_pos hst, if_pos hst, ha, getD_of_get? ha]
      simp only [if_neg hr_ne]
      exact ih _ hpre' hin'
    · rw [if_neg hst, if_neg hst]
      simp only [if_neg hr_ne]
      exact ih _ hpre' hin'

theorem smulti_loop_run (ft : Nat → Bool) (items : List (Bytes × Val Obj)) (last_i : Nat)
    (pre : List RespFrame) (t : RespFrame) (rest : List RespFrame) (fl : List Bytes)
    (hpre : ∀ r ∈ pre, r.opq ≠ last_i)
    (ht : t.opq = last_i)
    (hin : ∀ r ∈ pre ++ [t], ft r.status = true → r.opq < items.length) :
    smulti_loop ft items last_i (pre ++ t :: rest) fl =
      some (smulti_spec_fold ft items (pre ++ [t]) fl) := by
  induction pre generalizing fl with
  | nil =>
    simp only [List.nil_append]
    simp only [smulti_loop, smulti_spec_fold, List.foldl_cons, List.foldl_nil]
    by_cases hst : ft t.status = true
    · have hlt := hin t (List.mem_singleton_self t) hst
      obtain ⟨a, ha⟩ : ∃ a, items.get? t.opq = some a := ⟨_, List.get?_eq_get hlt⟩
      have ha1 : (items.map Prod.fst).get? t.opq = some a.1 := by
        rw [List.get?_map, ha]
        rfl
      rw [if_pos hst, if_pos hst, ha, getD_of_get? ha1]
      simp only [if_pos ht]
    · rw [if_neg hst, if_neg hst]
      simp only [if_pos ht]
  | cons r pre ih =>
    simp only [List.cons_append]
    simp only [smulti_loop, smulti_spec_fold, List.foldl_cons]
    have hr_ne : r.opq ≠ last_i := hpre r (List.mem_cons_self r pre)
    have hpre' : ∀ q ∈ pre, q.opq ≠ last_i := fun q hq => hpre q (List.mem_cons_of_mem r hq)
    have hin' : ∀ q ∈ pre ++ [t], ft q.status = true → q.opq < items.length := by
      intro q hq
      exact hin q (by rw [List.cons_append]; exact List.mem_cons_of_mem r hq)
    by_cases hst : ft r.status = true
    · have hlt := hin r (by rw [List.cons_append]; exact List.mem_cons_self r _) hst
      obtain ⟨a, ha⟩ : ∃ a, items.get? r.opq = some a := ⟨_, List.get?_eq_get hlt⟩
      have ha1 : (items.map Prod.fst).get? r.opq = some a.1 := by
        rw [List.get?_map, ha]
        rfl
      rw [if_pos hst, if_pos hst, ha, getD_of_get? ha1]
      simp only [if_neg hr_ne]
      exact ih _ hpre' hin'
    · rw [if_neg hst, if_neg hst]
      simp only [if_neg hr_ne]
      exact ih _ hpre' hin'

theorem dmulti_loop_run (items : List Bytes) (last_i : Nat)
    (pre : List RespFrame) (t : RespFrame) (rest : List RespFrame) (fl : List Bytes)
    (hpre : ∀ r ∈ pre, r.opq ≠ last_i)
    (ht : t.opq = last_i)
    (hin : ∀ r ∈ pre ++ [t], r.status ≠ R_no_error → r.opq < items.length) :
    dmulti_loop items last_i (pre ++ t :: rest) fl =
      some (dmulti_spec_fold items (pre ++ [t]) fl) := by
  induction pre generalizing fl with
  | nil =>
    simp only [List.nil_append]
    simp only [dmulti_loop, dmulti_spec_fold, List.foldl_cons, List.foldl_nil]
    by_cases hst : t.status ≠ R_no_error
    · have hlt := hin t (List.mem_singleton_self t) hst
      obtain ⟨a, ha⟩ : ∃ a, items.get? t.opq = some a := ⟨_, List.get?_eq_get hlt⟩
      rw [if_pos hst, if_pos hst, ha, getD_of_get? ha]
      simp only [if_pos ht]
    · rw [if_neg hst, if_neg hst]
      simp only [if_pos ht]
  | cons r pre ih =>
    simp only [List.cons_append]
    simp only [dmulti_loop, dmulti_spec_fold, List.foldl_cons]
    have hr_ne : r.opq ≠ last_i := hpre r (List.mem_cons_self r pre)
    have hpre' : ∀ q ∈ pre, q.opq ≠ last_i := fun q hq => hpre q (List.mem_cons_of_mem r hq)
    have hin' : ∀ q ∈ pre ++ [t], q.status ≠ R_no_error → q.opq < items.length := by
      intro q hq
      exact hin q (by rw [List.cons_append]; exact List.mem_cons_of_mem r hq)
    by_cases hst : r.status ≠ R_no_error
    · have hlt := hin r (by rw [List.cons_append]; exact List.mem_cons_self r _) hst
      obtain ⟨a, ha⟩ : ∃ a, items.get? r.opq = some a := ⟨_, List.get?_eq_get hlt⟩
      rw [if_pos hst, if_pos hst, ha, getD_of_get? ha]
      simp only [if_neg hr_ne]
      exact ih _ hpre' hin'
    · rw [if_neg hst, if_neg hst]
      simp only [if_neg hr_ne]
      exact ih _ hpre' hin'

theorem enum_get? (l : List α) (i : Nat) :
    l.enum.get? i = (l.get? i).map (fun a => (i, a)) := by
  rw [List.get?_eq_getElem?, List.get?_eq_getElem?, List.getElem?_enum]

theorem gmulti_send_get? (ks : List Bytes) (i : Nat) (hi : i < ks.length) :
    ∃ a, ks.get? i = some a ∧
      (gmulti_send ks).get? i =
        some (if i = ks.length - 1 then _gd M_get a i 0 else _gd M_getq a i 0) := by
  obtain ⟨a, ha⟩ : ∃ a, ks.get? i = some a := ⟨_, List.get?_eq_get hi⟩
  refine ⟨a, ha, ?_⟩
  simp only [gmulti_send, List.get?_map, enum_get?, ha]
  rfl

theorem smulti_send_get? (c : Cfg Obj) (items : List (Bytes × Val Obj)) (expire : Nat)
    (i : Nat) (hi : i < items.length) :
    ∃ kv, items.get? i = some kv ∧
      (smulti_send c items expire).get? i =
        some (if i = items.length - 1 then
            _s M_set kv.1 (_serialize c kv.2).2 i expire 0 (_serialize c kv.2).1
          else _s M_setq kv.1 (_serialize c kv.2).2 i expire 0 (_serialize c kv.2).1) := by
  obtain ⟨kv, ha⟩ : ∃ kv, items.get? i = some kv := ⟨_, List.get?_eq_get hi⟩
  refine ⟨kv, ha, ?_⟩
  simp only [smulti_send, List.get?_map, enum_get?, ha]
  rfl

theorem dmulti_send_get? (items : List Bytes) (i : Nat) (hi : i < items.length) :
    ∃ a, items.get? i = some a ∧
      (dmulti_send items).get? i =
        some (if i = items.length - 1 then _gd M_delete a i 0 else _gd M_deleteq a i 0) := by
  obtain ⟨a, ha⟩ : ∃ a, items.get? i = some a := ⟨_, List.get?_eq_get hi⟩
  refine ⟨a, ha, ?_⟩
  simp only [dmulti_send, List.get?_map, enum_get?, ha]
  rfl

theorem gmulti_send_length (ks : List Bytes) : (gmulti_send ks).length = ks.length := by
  simp [gmulti_send, List.enum_length]

theorem smulti_send_length (c : Cfg Obj) (items : List (Bytes × Val Obj)) (expire : Nat) :
    (smulti_send c items expire).length = items.length := by
  simp [smulti_send, List.enum_length]

theorem dmulti_send_length (items : List Bytes) :
    (dmulti_send items).length = items.length := by
  simp [dmulti_send, List.enum_length]

/-- Claim C1: for each per-server group of `get_multi`, `set_multi` and
`delete_multi`, the engine tags request `i` with opaque `i` (ascending from
0, within the 32-bit wire field), sends every request but the last with the
quiet opcode and the last with the loud opcode, attributes each received
response to the request whose index equals the echoed opaque, and stops
reading exactly at the first response whose opaque equals the last request's
index — the frames past it are never consumed. -/
theorem multiop_protocol (Obj : Type) :
    (∀ (ks : List Bytes) (i : Nat), i < ks.length → ks.length ≤ 2 ^ 32 →
      ∃ f, (gmulti_send ks).get? i = some f ∧ f.opq = i ∧
        f.opcode = (if i = ks.length - 1 then M_get else M_getq) ∧
        (gmulti_send ks).length = ks.length) ∧
    (∀ (c : Cfg Obj) (items : List (Bytes × Val Obj)) (expire i : Nat),
      i < items.length → items.length ≤ 2 ^ 32 →
      ∃ f, (smulti_send c items expire).get? i = some f ∧ f.opq = i ∧
        f.opcode = (if i = items.length - 1 then M_set else M_setq) ∧
        (smulti_send c items expire).length = items.length) ∧
    (∀ (items : List Bytes) (i : Nat), i < items.length → items.length ≤ 2 ^ 32 →
      ∃ f, (dmulti_send items).get? i = some f ∧ f.opq = i ∧
        f.opcode = (if i = items.length - 1 then M_delete else M_deleteq) ∧
        (dmulti_send items).length = items.length) ∧
    (∀ (c : Cfg Obj) (ks : List Bytes) (last_i : Nat) (pre : List RespFrame)
      (t : RespFrame) (rest : List RespFrame) (m : List (Bytes × Val Obj)),
      (∀ r ∈ pre, r.opq ≠ last_i) → t.opq = last_i →
      (∀ r ∈ pre ++ [t], r.status = R_no_error → r.opq < ks.length) →
      gmulti_loop c ks last_i (pre ++ t :: rest) m =
        some (gmulti_spec_fold c ks (pre ++ [t]) m)) ∧
    (∀ (ft : Nat → Bool) (items : List (Bytes × Val Obj)) (last_i : Nat)
      (pre : List RespFrame) (t : RespFrame) (rest : List RespFrame) (fl : List Bytes),
      (∀ r ∈ pre, r.opq ≠ last_i) → t.opq = last_i →
      (∀ r ∈ pre ++ [t], ft r.status = true → r.opq < items.length) →
      smulti_loop ft items last_i (pre ++ t :: rest) fl =
        some (smulti_spec_fold ft items (pre ++ [t]) fl)) ∧
    (∀ (items : List Bytes) (last_i : Nat) (pre : List RespFrame) (t : RespFrame)
      (rest : List RespFrame) (fl : List Bytes),
      (∀ r ∈ pre, r.opq ≠ last_i) → t.opq = last_i →
      (∀ r ∈ pre ++ [t], r.status ≠ R_no_error → r.opq < items.length) →
      dmulti_loop items last_i (pre ++ t :: rest) fl =
        some (dmulti_spec_fold items (pre ++ [t]) fl)) := by
  refine ⟨?_, ?_, ?_,
    fun c ks last_i pre t rest m hp ht hin => gmulti_loop_run c ks last_i pre t rest m hp ht hin,
    fun ft items last_i pre t rest fl hp ht hin =>
      smulti_loop_run ft items last_i pre t rest fl hp ht hin,
    fun items last_i pre t rest fl hp ht hin =>
      dmulti_loop_run items last_i pre t rest fl hp ht hin⟩
  · intro ks i hi hw
    obtain ⟨a, _, hf⟩ := gmulti_send_get? ks i hi
    refine ⟨_, hf, ?_, ?_, gmulti_send_length ks⟩
    · by_cases hlast : i = ks.length - 1
      · rw [if_pos hlast]
        exact Nat.mod_eq_of_lt (lt_of_lt_of_le hi hw)
      · rw [if_neg hlast]
        exact Nat.mod_eq_of_lt (lt_of_lt_of_le hi hw)
    · by_cases hlast : i = ks.length - 1
      · rw [if_pos hlast, if_pos hlast]
        rfl
      · rw [if_neg hlast, if_neg hlast]
        rfl
  · intro c items expire i hi hw
    obtain ⟨kv, _, hf⟩ := smulti_send_get? c items expire i hi
    refine ⟨_, hf, ?_, ?_, smulti_send_length c items expire⟩
    · by_cases hlast : i = items.length - 1
      · rw [if_pos hlast]
        exact Nat.mod_eq_of_lt (lt_of_lt_of_le hi hw)
      · rw [if_neg hlast]
        exact Nat.mod_eq_of_lt (lt_of_lt_of_le hi hw)
    · by_cases hlast : i = items.length - 1
      · rw [if_pos hlast, if_pos hlast]
        rfl
      · rw [if_neg hlast, if_neg hlast]
        rfl
  · intro items i hi hw
    obtain ⟨a, _, hf⟩ := dmulti_send_get? items i hi
    refine ⟨_, hf, ?_, ?_, dmulti_send_length items⟩
    · by_cases hlast : i = items.length - 1
      · rw [if_pos hlast]
        exact Nat.mod_eq_of_lt (lt_of_lt_of_le hi hw)
      · rw [if_neg hlast]
        exact Nat.mod_eq_of_lt (lt_of_lt_of_le hi hw)
    · by_cases hlast : i = items.length - 1
      · rw [if_pos hlast, if_pos hlast]
        rfl
      · rw [if_neg hlast, if_neg hlast]
        rfl

/-- Concrete response frames for the C1 witness: a no-error value response
with opaque 0 and a key-not-found terminator with opaque 1 (or 0). -/
def r0W : RespFrame := ⟨0x81, 0, 0, 0, 0, 0, 5, 0, 0, [0, 0, 0, 0, 97]⟩

/-- Terminator response with opaque 1 and status `key_not_found`. -/
def r1W : RespFrame := ⟨0x81, 0, 0, 0, 0, 1, 0, 1, 0, []⟩

/-- Terminator response with opaque 0 and status `key_not_found`. -/
def r2W : RespFrame := ⟨0x81, 0, 0, 0, 0, 1, 0, 0, 0, []⟩

/-- Witness for C1 on concrete two-request groups and response streams. -/
theorem multiop_protocol_witness :
    (∃ f, (gmulti_send [[1], [2]]).get? 0 = some f ∧ f.opq = 0 ∧
      f.opcode = (if 0 = ([[1], [2]] : List Bytes).length - 1 then M_get else M_getq) ∧
      (gmulti_send [[1], [2]]).length = ([[1], [2]] : List Bytes).length) ∧
    (∃ f, (smulti_send cfgPlain [([1], Val.str [97])] 0).get? 0 = some f ∧ f.opq = 0 ∧
      f.opcode = (if 0 = ([([1], Val.str [97])] : List (Bytes × Val Unit)).length - 1
        then M_set else M_setq) ∧
      (smulti_send cfgPlain [([1], Val.str [97])] 0).length =
        ([([1], Val.str [97])] : List (Bytes × Val Unit)).length) ∧
    (∃ f, (dmulti_send [[1], [2]]).get? 1 = some f ∧ f.opq = 1 ∧
      f.opcode = (if 1 = ([[1], [2]] : List Bytes).length - 1 then M_delete else M_deleteq) ∧
      (dmulti_send [[1], [2]]).length = ([[1], [2]] : List Bytes).length) ∧
    gmulti_loop cfgPlain [[1], [2]] 1 ([r0W] ++ r1W :: []) [] =
      some (gmulti_spec_fold cfgPlain [[1], [2]] ([r0W] ++ [r1W]) []) ∧
    smulti_loop (fun s => decide (s ≠ R_no_error))
        ([([1], Val.str [97])] : List (Bytes × Val Unit)) 0
        ([] ++ r2W :: []) [] =
      some (smulti_spec_fold (fun s => decide (s ≠ R_no_error))
        ([([1], Val.str [97])] : List (Bytes × Val Unit)) ([] ++ [r2W]) []) ∧
    dmulti_loop [[1]] 0 ([] ++ r2W :: []) [] =
      some (dmulti_spec_fold [[1]] ([] ++ [r2W]) []) :=
  ⟨(multiop_protocol Unit).1 [[1], [2]] 0 (by decide) (by norm_num),
   (multiop_protocol Unit).2.1 cfgPlain [([1], Val.str [97])] 0 0 (by decide) (by norm_num),
   (multiop_protocol Unit).2.2.1 [[1], [2]] 1 (by decide) (by norm_num),
   (multiop_protocol Unit).2.2.2.1 cfgPlain [[1], [2]] 1 [r0W] r1W [] []
     (by decide) (by decide) (by decide),
   (multiop_protocol Unit).2.2.2.2.1 (fun s => decide (s ≠ R_no_error))
     [([1], Val.str [97])] 0 [] r2W [] [] (by decide) (by decide) (by decide),
   (multiop_protocol Unit).2.2.2.2.2 [[1]] 0 [] r2W [] [] (by decide) (by decide) (by decide)⟩

end Pymemc
